import Mathlib

/-!
Verification of the ata² interactive streaming session core.

The development shallowly embeds the stream-text normalizer
(`fix_newlines` / `store_and_do_nothing` / `join_and_clear` from
`src/prompt.rs`), the response-consumption loop of `request`
(`src/prompt.rs`), and the line-input loop of `Readline::handle`
(`src/readline.rs`).  Strings are modelled as `List Char`; Rust's
`str::replace("\\n", "\n")` is modelled by the leftmost,
non-overlapping scanner `replaceBN`.
-/

/-- Rust `text.ends_with("\\")`: the last character is a backslash. -/
def endsWithBS : List Char → Bool
  | [] => false
  | [c] => c = '\\'
  | _ :: c :: rest => endsWithBS (c :: rest)

/-- Rust `joined.replace("\\n", "\n")`: replace every leftmost,
non-overlapping literal backslash-n pair by a newline character. -/
def replaceBN : List Char → List Char
  | [] => []
  | [c] => [c]
  | c1 :: c2 :: rest =>
    if c1 = '\\' ∧ c2 = 'n' then '\n' :: replaceBN rest
    else c1 :: replaceBN (c2 :: rest)

/-- Whether the list contains a literal backslash-n pair. -/
def hasBN : List Char → Bool
  | [] => false
  | [_] => false
  | c1 :: c2 :: rest => (c1 = '\\' && c2 = 'n') || hasBN (c2 :: rest)

/-- `store_and_do_nothing` (prompt.rs): push the fragment on the print
buffer and emit the empty string. -/
def store_and_do_nothing (buf : List (List Char)) (text : List Char) :
    List (List Char) × List Char :=
  (buf ++ [text], [])

/-- `join_and_clear` (prompt.rs): join the buffered fragments with the
current one, clear the buffer, and substitute backslash-n pairs. -/
def join_and_clear (buf : List (List Char)) (text : List Char) :
    List (List Char) × List Char :=
  ([], replaceBN (buf.flatten ++ text))

/-- `fix_newlines` (prompt.rs): buffer a fragment ending in a backslash,
drain a non-empty buffer otherwise, else emit the fragment as-is. -/
def fix_newlines (buf : List (List Char)) (text : List Char) :
    List (List Char) × List Char :=
  if endsWithBS text then store_and_do_nothing buf text
  else if buf ≠ [] then join_and_clear buf text
  else (buf, text)

/-- Feed a list of fragments through `fix_newlines`, collecting the
emitted strings; returns the final buffer and the emissions. -/
def processAll (buf : List (List Char)) :
    List (List Char) → List (List Char) × List (List Char)
  | [] => (buf, [])
  | f :: fs =>
    let p := fix_newlines buf f
    let q := processAll p.1 fs
    (q.1, p.2 :: q.2)

theorem replaceBN_cons_cons (c1 c2 : Char) (rest : List Char) :
    replaceBN (c1 :: c2 :: rest) =
      if c1 = '\\' ∧ c2 = 'n' then '\n' :: replaceBN rest
      else c1 :: replaceBN (c2 :: rest) := rfl

theorem endsWithBS_cons (a c : Char) (l : List Char) :
    endsWithBS (a :: c :: l) = endsWithBS (c :: l) := rfl

theorem endsWithBS_cons_of_ne_nil (a : Char) (l : List Char) (h : l ≠ []) :
    endsWithBS (a :: l) = endsWithBS l := by
  cases l with
  | nil => exact absurd rfl h
  | cons c rest => rfl

theorem endsWithBS_append (A f : List Char) (h : f ≠ []) :
    endsWithBS (A ++ f) = endsWithBS f := by
  induction A with
  | nil => rfl
  | cons a A ih =>
    have hne : A ++ f ≠ [] := by
      intro hc
      exact h (List.append_eq_nil.mp hc).2
    rw [List.cons_append, endsWithBS_cons_of_ne_nil a (A ++ f) hne, ih]

theorem replaceBN_append_fuel : ∀ (n : Nat) (A B : List Char), A.length ≤ n →
    endsWithBS A = false → replaceBN (A ++ B) = replaceBN A ++ replaceBN B := by
  intro n
  induction n with
  | zero =>
    intro A B hlen _
    have hA : A = [] := List.length_eq_zero.mp (Nat.le_zero.mp hlen)
    subst hA
    simp [replaceBN]
  | succ n ih =>
    intro A B hlen hA
    match A, hA with
    | [], _ => simp [replaceBN]
    | [c], hA =>
      have hc : ¬(c = '\\') := by
        simpa [endsWithBS] using hA
      cases B with
      | nil => simp [replaceBN]
      | cons b B' =>
        show replaceBN (c :: b :: B') = replaceBN [c] ++ replaceBN (b :: B')
        rw [replaceBN_cons_cons, if_neg (fun hp => hc hp.1)]
        rfl
    | c1 :: c2 :: A'', hA =>
      have hA2 : endsWithBS (c2 :: A'') = false := hA
      have hlen2 : (c2 :: A'').length ≤ n := by
        simpa [List.length] using Nat.le_of_succ_le_succ hlen
      by_cases hp : c1 = '\\' ∧ c2 = 'n'
      · have hA'' : endsWithBS A'' = false := by
          cases A'' with
          | nil => rfl
          | cons x xs => rw [← endsWithBS_cons c2 x xs]; exact hA2
        have hlen'' : A''.length ≤ n := Nat.le_of_succ_le hlen2
        show replaceBN (c1 :: c2 :: (A'' ++ B)) = replaceBN (c1 :: c2 :: A'') ++ replaceBN B
        rw [replaceBN_cons_cons, if_pos hp, replaceBN_cons_cons, if_pos hp,
          List.cons_append, ih A'' B hlen'' hA'']
      · show replaceBN (c1 :: c2 :: (A'' ++ B)) = replaceBN (c1 :: c2 :: A'') ++ replaceBN B
        rw [replaceBN_cons_cons, if_neg hp, replaceBN_cons_cons, if_neg hp,
          List.cons_append]
        have := ih (c2 :: A'') B hlen2 hA2
        rw [List.cons_append] at this
        rw [this]

theorem replaceBN_append (A B : List Char) (h : endsWithBS A = false) :
    replaceBN (A ++ B) = replaceBN A ++ replaceBN B :=
  replaceBN_append_fuel A.length A B (Nat.le_refl _) h

theorem replaceBN_eq_self (l : List Char) (h : hasBN l = false) : replaceBN l = l := by
  induction l with
  | nil => rfl
  | cons c tl ih =>
    cases tl with
    | nil => rfl
    | cons c2 rest =>
      have h1 : ((c = '\\' : Bool) && (c2 = 'n' : Bool)) = false ∧ hasBN (c2 :: rest) = false := by
        simpa [hasBN, Bool.or_eq_false_iff] using h
      have hp : ¬(c = '\\' ∧ c2 = 'n') := by
        intro hand
        simp [hand.1, hand.2] at h1
      rw [replaceBN_cons_cons, if_neg hp, ih h1.2]

theorem processAll_cons (b : List (List Char)) (f : List Char) (fs : List (List Char)) :
    processAll b (f :: fs) =
      ((processAll (fix_newlines b f).1 fs).1,
        (fix_newlines b f).2 :: (processAll (fix_newlines b f).1 fs).2) := rfl

/-- Main normalizer lemma: if every fragment is non-empty and contains no
backslash-n pair inside itself, and the run ends with an empty buffer, the
emitted concatenation is the concatenation of the initial buffer and the
fragments with every backslash-n pair replaced by a newline. -/
theorem processAll_spec : ∀ (fs : List (List Char)) (b : List (List Char)),
    (∀ f ∈ fs, f ≠ [] ∧ hasBN f = false) →
    (processAll b fs).1 = [] →
    ((processAll b fs).2).flatten = replaceBN (b.flatten ++ fs.flatten) := by
  intro fs
  induction fs with
  | nil =>
    intro b _ hb
    have : b = [] := hb
    subst this
    simp [processAll, replaceBN]
  | cons f fs ih =>
    intro b hall hb
    have hf := hall f (List.mem_cons_self f fs)
    have hrest : ∀ g ∈ fs, g ≠ [] ∧ hasBN g = false :=
      fun g hg => hall g (List.mem_cons_of_mem f hg)
    by_cases he : endsWithBS f = true
    · have hfx : fix_newlines b f = (b ++ [f], []) := by
        simp [fix_newlines, he, store_and_do_nothing]
      rw [processAll_cons, hfx] at hb ⊢
      simp only [List.flatten_cons]
      have hb' : (processAll (b ++ [f]) fs).1 = [] := hb
      have := ih (b ++ [f]) hrest hb'
      rw [this]
      simp [List.flatten_append]
    · have he' : endsWithBS f = false := Bool.not_eq_true _ ▸ eq_false_of_ne_true he
      by_cases hbne : b = []
      · subst hbne
        have hfx : fix_newlines [] f = ([], f) := by
          simp [fix_newlines, he']
        rw [processAll_cons, hfx] at hb ⊢
        simp only [List.flatten_cons]
        have := ih [] hrest hb
        simp only [List.flatten_nil, List.nil_append] at this
        rw [this]
        simp only [List.flatten_nil, List.nil_append, List.flatten_cons]
        rw [replaceBN_append f fs.flatten he', replaceBN_eq_self f hf.2]
      · have hfx : fix_newlines b f = ([], replaceBN (b.flatten ++ f)) := by
          simp [fix_newlines, he', hbne, join_and_clear]
        rw [processAll_cons, hfx] at hb ⊢
        simp only [List.flatten_cons]
        have := ih [] hrest hb
        simp only [List.flatten_nil, List.nil_append] at this
        rw [this, ← replaceBN_append (b.flatten ++ f) fs.flatten
          (by rw [endsWithBS_append b.flatten f hf.1]; exact he')]
        simp [List.flatten_cons, List.append_assoc]

/-- C1 (counterexample): the normalizer does not substitute a backslash-n
pair that arrives whole inside a single fragment while the buffer is
empty — `fix_newlines` returns such a fragment as-is, without calling
`replace`, so the emitted concatenation differs from the input
concatenation with every backslash-n pair replaced. -/
theorem C1_counterexample :
    (processAll [] ["a\\nb".data]).2.flatten ≠ replaceBN ("a\\nb".data) := by
  decide

/-- C1 (amended): for every sequence of fragments that are non-empty and
carry no backslash-n pair wholly inside a single fragment (pairs arise
only split across fragment boundaries), and whose processing ends with an
empty buffer, the concatenation of the emitted strings equals the
concatenation of the input fragments with every literal backslash-n pair
replaced by an actual newline character. -/
theorem C1_emitted_concat_eq_replaced (fs : List (List Char))
    (h1 : ∀ f ∈ fs, f ≠ [] ∧ hasBN f = false)
    (h2 : (processAll [] fs).1 = []) :
    ((processAll [] fs).2).flatten = replaceBN fs.flatten := by
  have h := processAll_spec fs [] h1 h2
  simpa using h

/-- Witness for the amended C1 theorem at the spec's own example split
`["Hello\", "n", "World"]`. -/
theorem C1_emitted_concat_eq_replaced_witness :
    (∀ f ∈ ["Hello\\".data, "n".data, "World".data], f ≠ [] ∧ hasBN f = false) ∧
    (processAll [] ["Hello\\".data, "n".data, "World".data]).1 = [] ∧
    ((processAll [] ["Hello\\".data, "n".data, "World".data]).2).flatten
      = replaceBN (["Hello\\".data, "n".data, "World".data].flatten) :=
  ⟨by decide, by decide,
    C1_emitted_concat_eq_replaced ["Hello\\".data, "n".data, "World".data]
      (by decide) (by decide)⟩

/-- C6 (counterexample): a fragment ending in an escaped backslash (two
trailing backslashes) IS buffered by `fix_newlines`, because the code
tests only `ends_with("\\")`, i.e. the final character; the claim states
such a fragment is not buffered. -/
theorem C6_counterexample :
    fix_newlines [] "ab\\\\".data = ([ "ab\\\\".data ], []) := by
  decide

/-- C6 (amended): `fix_newlines` buffers a fragment (appending it to the
buffer and emitting the empty string) exactly when the fragment's final
character is a backslash — regardless of whether that backslash is itself
escaped — and the resulting buffer is non-empty exactly in that case; a
fragment not ending in a backslash always leaves the buffer empty, and
when it finds a non-empty buffer it joins and clears it with backslash-n
substitution applied. -/
theorem C6_buffer_invariant (buf : List (List Char)) (f : List Char) :
    ((fix_newlines buf f).1 ≠ [] ↔ endsWithBS f = true)
    ∧ (endsWithBS f = true → fix_newlines buf f = (buf ++ [f], []))
    ∧ (endsWithBS f = false → (fix_newlines buf f).1 = [])
    ∧ (endsWithBS f = false → buf ≠ [] →
        fix_newlines buf f = ([], replaceBN (buf.flatten ++ f))) := by
  by_cases h : endsWithBS f = true <;>
    by_cases hb : buf = [] <;>
      simp [fix_newlines, store_and_do_nothing, join_and_clear, h, hb]

/-- Witness for the amended C6 theorem: a non-empty buffer is joined,
substituted, and cleared by a fragment that does not end in a backslash. -/
theorem C6_buffer_invariant_witness :
    endsWithBS "x".data = false ∧ ([['a', '\\']] : List (List Char)) ≠ [] ∧
    fix_newlines [['a', '\\']] "x".data
      = ([], replaceBN ([['a', '\\']].flatten ++ "x".data)) :=
  ⟨by decide, by decide,
    (C6_buffer_invariant [['a', '\\']] "x".data).2.2.2 (by decide) (by decide)⟩

/-! Embedding of the response-consumption loop of `request` (prompt.rs).

The stream of `async_openai` items is a list of decoded completions or
transport errors; the shared `abort` flag, which another task may set at
any time, is modelled by a schedule of booleans popped at each
`abort.load()` call (exhausted schedule reads `false`).  The state
records the function-local `print_buffer`, `got_first_success` and `ret`,
the shared `is_running` flag, the text printed to standard output, the
user-visible error lines, and — as a ghost trace — each stream item
consumed, paired with the value `is_running` held when it was pulled. -/

inductive FinishReason
  | stop
  | length
  | contentFilter
deriving DecidableEq

structure StreamDelta where
  content : Option (List Char)
deriving DecidableEq

structure StreamChoice where
  finish_reason : Option FinishReason
  delta : StreamDelta
deriving DecidableEq

structure Completion where
  choices : List StreamChoice
deriving DecidableEq

inductive StreamItem
  | ok (c : Completion)
  | err (e : List Char)
deriving DecidableEq

structure RState where
  printBuffer : List (List Char)
  gotFirst : Bool
  ret : List Completion
  isRunning : Bool
  out : List (List Char)
  errs : List (List Char)
  consumed : List (StreamItem × Bool)
  aborts : List Bool
deriving DecidableEq

/-- One `abort.load(Ordering::Relaxed)`: pop the next scheduled value. -/
def chk (s : RState) : Bool × RState :=
  match s.aborts with
  | [] => (false, s)
  | b :: rest => (b, { s with aborts := rest })

/-- Debug rendering of a `FinishReason`, as in `format!("{reason:?}")`. -/
def reasonName : FinishReason → List Char
  | .stop => "Stop".data
  | .length => "Length".data
  | .contentFilter => "ContentFilter".data

def apiErrMsg (r : FinishReason) : List Char :=
  "OpenAI API error: ".data ++ reasonName r

def transportMsg (e : List Char) : List Char :=
  "OpenAI API error: ".data ++ e

def emptyPromptMsg : List Char := "Empty prompt, aborting.".data

/-- `print_error` (prompt.rs): report a user-visible error line and run
`finish_prompt`, which stores `false` into `is_running`. -/
def printError (s : RState) (msg : List Char) : RState :=
  { s with errs := s.errs ++ [msg], isRunning := false }

/-- Control transfer out of the `for choice in &completion.choices` body:
`break 'abort`, `continue 'abort`, or falling through to the next stream
item (the end of the for loop and `continue 'outer` both do the latter). -/
inductive Ctl
  | brk
  | cont
  | fall
deriving DecidableEq

/-- The `for choice in &completion.choices` body of `request`. -/
def processChoices (s : RState) : List StreamChoice → RState × Ctl
  | [] => (s, .fall)
  | ch :: rest =>
    let p := chk s
    if p.1 then (p.2, .brk)
    else
      match ch.finish_reason with
      | some FinishReason.stop => (p.2, .brk)
      | some r => (printError p.2 (apiErrMsg r), .cont)
      | none =>
        match ch.delta.content with
        | some text =>
          let q := fix_newlines p.2.printBuffer text
          processChoices { p.2 with printBuffer := q.1, out := p.2.out ++ [q.2] } rest
        | none => (p.2, .fall)

/-- State update on pulling a decoded completion: record the ghost trace
entry, push the completion onto `ret` (line 157 of prompt.rs) and raise
`got_first_success` (lines 158–161; the `print_response_prompt` call
writes only to stderr and is not modelled). -/
def okStep (s : RState) (comp : Completion) : RState :=
  { s with consumed := s.consumed ++ [(StreamItem.ok comp, s.isRunning)],
           ret := s.ret ++ [comp], gotFirst := true }

/-- State update on pulling a transport error: record the ghost trace
entry and report the error (lines 189–193 of prompt.rs). -/
def errStep (s : RState) (e : List Char) : RState :=
  printError { s with consumed := s.consumed ++ [(StreamItem.err e, s.isRunning)] }
    (transportMsg e)

/-- The `'outer: while let Some(completion) = stream.next().await` loop of
`request`, including the `'abort` re-entry performed by `continue 'abort`
(which re-checks the abort flag and then resumes the same stream). -/
def consume (s : RState) : List StreamItem → RState
  | [] => s
  | item :: rest =>
    match item with
    | .ok comp =>
      match processChoices (okStep s comp) comp.choices with
      | (s2, .brk) => s2
      | (s2, .fall) => consume s2 rest
      | (s2, .cont) =>
        let p := chk s2
        if p.1 then p.2 else consume p.2 rest
    | .err e =>
      let p := chk (errStep s e)
      if p.1 then p.2 else consume p.2 rest

/-- The mapping from `ret` to the returned collection — the
`drain/map/collect/drain/map/flatten/collect` chain of `request`, whose
`Arc`/`clone` steps are identities. -/
def buildResult (ret : List Completion) : List StreamChoice :=
  ((ret.map (fun o => o.choices)).map (fun cs => cs.map (fun c => c))).flatten

def initialRState (aborts : List Bool) : RState :=
  { printBuffer := [], gotFirst := false, ret := [], isRunning := true,
    out := [], errs := [], consumed := [], aborts := aborts }

/-- Lines 199–222 of prompt.rs, after the consumption loop has ended: when
no completion was ever decoded, report the empty-prompt notice and return
the empty collection; otherwise print the blank separator, build the
returned collection from `ret`, and clear `is_running`. -/
def finishRequest (s : RState) : RState × List StreamChoice :=
  if s.gotFirst = false then (printError s emptyPromptMsg, [])
  else
    let s1 := { s with out := s.out ++ [['\n']] }
    let res := buildResult s1.ret
    ({ s1 with isRunning := false }, res)

/-- The state in which the consumption loop of `request` ends: the
initial abort check (line 151 of prompt.rs) followed, when the flag is
clear, by the stream consumption. -/
def loopState (aborts : List Bool) (stream : List StreamItem) : RState :=
  let p := chk (initialRState aborts)
  if p.1 then p.2 else consume p.2 stream

/-- `request` (prompt.rs), from the `is_running.store(true)` just after the
stream is created to the final `Ok(result)`: consume the stream, then
finish the cycle. -/
def request (aborts : List Bool) (stream : List StreamItem) :
    RState × List StreamChoice :=
  finishRequest (loopState aborts stream)

/-- The completions among a consumed trace, in arrival order. -/
def oksOf (l : List (StreamItem × Bool)) : List Completion :=
  l.filterMap (fun p => match p.1 with | .ok c => some c | .err _ => none)

theorem oksOf_nil : oksOf [] = [] := rfl

theorem oksOf_append (l1 l2 : List (StreamItem × Bool)) :
    oksOf (l1 ++ l2) = oksOf l1 ++ oksOf l2 := by
  simp [oksOf, List.filterMap_append]

theorem chk_fields (s : RState) :
    (chk s).2.consumed = s.consumed ∧ (chk s).2.ret = s.ret
    ∧ (chk s).2.gotFirst = s.gotFirst ∧ (chk s).2.isRunning = s.isRunning
    ∧ (chk s).2.errs = s.errs ∧ (chk s).2.printBuffer = s.printBuffer
    ∧ (chk s).2.out = s.out := by
  cases h : s.aborts <;> simp [chk, h]

theorem printError_fields (s : RState) (m : List Char) :
    (printError s m).consumed = s.consumed ∧ (printError s m).ret = s.ret
    ∧ (printError s m).gotFirst = s.gotFirst
    ∧ (printError s m).errs = s.errs ++ [m] := ⟨rfl, rfl, rfl, rfl⟩

theorem processChoices_fields : ∀ (chs : List StreamChoice) (s : RState),
    ((processChoices s chs).1).consumed = s.consumed
    ∧ ((processChoices s chs).1).ret = s.ret
    ∧ ((processChoices s chs).1).gotFirst = s.gotFirst := by
  intro chs
  induction chs with
  | nil => intro s; exact ⟨rfl, rfl, rfl⟩
  | cons ch rest ih =>
    intro s
    have hc := chk_fields s
    simp only [processChoices]
    by_cases hb : (chk s).1 = true
    · simp [hb, hc.1, hc.2.1, hc.2.2.1]
    · simp only [Bool.not_eq_true] at hb
      simp only [hb, Bool.false_eq_true, if_false]
      cases hr : ch.finish_reason with
      | none =>
        cases hco : ch.delta.content with
        | none => simp [hc.1, hc.2.1, hc.2.2.1]
        | some text =>
          exact ⟨(ih _).1.trans hc.1, (ih _).2.1.trans hc.2.1,
            (ih _).2.2.trans hc.2.2.1⟩
      | some r =>
        cases r <;> simp [printError, hc.1, hc.2.1, hc.2.2.1]

theorem apiErrMsg_ne (r : FinishReason) : apiErrMsg r ≠ emptyPromptMsg := by
  cases r <;> decide

theorem transportMsg_head (e : List Char) : (transportMsg e).head? = some 'O' := rfl

theorem transportMsg_ne (e : List Char) : transportMsg e ≠ emptyPromptMsg := by
  intro h
  have h2 : (transportMsg e).head? = emptyPromptMsg.head? := by rw [h]
  rw [transportMsg_head] at h2
  exact absurd h2 (by decide)

theorem processChoices_errs : ∀ (chs : List StreamChoice) (s : RState),
    emptyPromptMsg ∉ s.errs → emptyPromptMsg ∉ ((processChoices s chs).1).errs := by
  intro chs
  induction chs with
  | nil => intro s h; exact h
  | cons ch rest ih =>
    intro s h
    have hc := chk_fields s
    have hchk : emptyPromptMsg ∉ (chk s).2.errs := by rw [hc.2.2.2.2.1]; exact h
    simp only [processChoices]
    by_cases hb : (chk s).1 = true
    · simp [hb, hchk]
    · simp only [Bool.not_eq_true] at hb
      simp only [hb, Bool.false_eq_true, if_false]
      cases hr : ch.finish_reason with
      | none =>
        cases hco : ch.delta.content with
        | none => simpa using hchk
        | some text =>
          apply ih
          simpa using hchk
      | some r =>
        cases r
        · simpa using hchk
        · simp only [printError, List.mem_append, List.mem_singleton, not_or]
          exact ⟨hchk, fun hh => apiErrMsg_ne _ hh.symm⟩
        · simp only [printError, List.mem_append, List.mem_singleton, not_or]
          exact ⟨hchk, fun hh => apiErrMsg_ne _ hh.symm⟩

theorem oksOf_snoc_ok (l : List (StreamItem × Bool)) (c : Completion) (b : Bool) :
    oksOf (l ++ [(StreamItem.ok c, b)]) = oksOf l ++ [c] := by
  simp [oksOf]

theorem oksOf_snoc_err (l : List (StreamItem × Bool)) (e : List Char) (b : Bool) :
    oksOf (l ++ [(StreamItem.err e, b)]) = oksOf l := by
  simp [oksOf]

theorem okStep_fields (s : RState) (comp : Completion) :
    (okStep s comp).consumed = s.consumed ++ [(StreamItem.ok comp, s.isRunning)]
    ∧ (okStep s comp).ret = s.ret ++ [comp]
    ∧ (okStep s comp).gotFirst = true
    ∧ (okStep s comp).errs = s.errs := ⟨rfl, rfl, rfl, rfl⟩

theorem errStep_fields (s : RState) (e : List Char) :
    (errStep s e).consumed = s.consumed ++ [(StreamItem.err e, s.isRunning)]
    ∧ (errStep s e).ret = s.ret
    ∧ (errStep s e).gotFirst = s.gotFirst
    ∧ (errStep s e).errs = s.errs ++ [transportMsg e] := ⟨rfl, rfl, rfl, rfl⟩

theorem ifchk_true {α : Sort 1} {c : Bool} {a b : α} (h : c = true) :
    (if c = true then a else b) = a := by
  subst h
  rfl

theorem ifchk_false {α : Sort 1} {c : Bool} {a b : α} (h : c = false) :
    (if c = true then a else b) = b := by
  subst h
  rfl

/-- Invariants of the consumption loop: the consumed trace only grows; if
`ret` lists exactly the decoded completions consumed so far then it still
does afterwards; `got_first_success` is false exactly when no completion
has been decoded; and the loop never emits the empty-prompt notice. -/
theorem consume_inv : ∀ (st : List StreamItem) (s : RState),
    (∃ t, (consume s st).consumed = s.consumed ++ t)
    ∧ (s.ret = oksOf s.consumed → (consume s st).ret = oksOf (consume s st).consumed)
    ∧ ((s.gotFirst = false ↔ oksOf s.consumed = []) →
        ((consume s st).gotFirst = false ↔ oksOf (consume s st).consumed = []))
    ∧ (emptyPromptMsg ∉ s.errs → emptyPromptMsg ∉ (consume s st).errs) := by
  intro st
  induction st with
  | nil =>
    intro s
    exact ⟨⟨[], by simp [consume]⟩, fun h => by simpa [consume] using h,
      fun h => by simpa [consume] using h, fun h => by simpa [consume] using h⟩
  | cons item rest ih =>
    intro s
    cases item with
    | ok comp =>
      simp only [consume]
      rcases hpc : processChoices (okStep s comp) comp.choices with ⟨s2, ctl⟩
      have hf := processChoices_fields comp.choices (okStep s comp)
      have hge0 := processChoices_errs comp.choices (okStep s comp)
      rw [hpc] at hf hge0
      have hok := okStep_fields s comp
      have h2con : s2.consumed = s.consumed ++ [(StreamItem.ok comp, s.isRunning)] :=
        hf.1.trans hok.1
      have h2ret : s2.ret = s.ret ++ [comp] := hf.2.1.trans hok.2.1
      have h2got : s2.gotFirst = true := hf.2.2.trans hok.2.2.1
      have hge : emptyPromptMsg ∉ s.errs → emptyPromptMsg ∉ s2.errs := by
        intro h
        exact hge0 (by rw [hok.2.2.2]; exact h)
      have hretinv : s.ret = oksOf s.consumed → s2.ret = oksOf s2.consumed := by
        intro h
        rw [h2ret, h2con, oksOf_snoc_ok, h]
      have hgotinv : s2.gotFirst = false ↔ oksOf s2.consumed = [] := by
        rw [h2got, h2con, oksOf_snoc_ok]
        simp
      cases ctl with
      | brk =>
        exact ⟨⟨[(StreamItem.ok comp, s.isRunning)], h2con⟩, hretinv, fun _ => hgotinv,
          fun h => hge h⟩
      | fall =>
        refine ⟨?_, ?_, ?_, ?_⟩
        · obtain ⟨t2, ht2⟩ := (ih s2).1
          exact ⟨(StreamItem.ok comp, s.isRunning) :: t2, by
            rw [ht2, h2con, List.append_assoc]; rfl⟩
        · intro h
          exact (ih s2).2.1 (hretinv h)
        · intro _
          exact (ih s2).2.2.1 hgotinv
        · intro h
          exact (ih s2).2.2.2 (hge h)
      | cont =>
        dsimp only
        have hcf := chk_fields s2
        cases hb : (chk s2).1 with
        | true =>
          rw [ifchk_true rfl]
          refine ⟨⟨[(StreamItem.ok comp, s.isRunning)], hcf.1.trans h2con⟩, ?_, ?_, ?_⟩
          · intro h
            rw [hcf.2.1, hcf.1]
            exact hretinv h
          · intro _
            rw [hcf.2.2.1, hcf.1]
            exact hgotinv
          · intro h
            rw [hcf.2.2.2.2.1]
            exact hge h
        | false =>
          rw [ifchk_false rfl]
          refine ⟨?_, ?_, ?_, ?_⟩
          · obtain ⟨t2, ht2⟩ := (ih (chk s2).2).1
            refine ⟨(StreamItem.ok comp, s.isRunning) :: t2, ?_⟩
            rw [ht2, hcf.1, h2con, List.append_assoc]
            rfl
          · intro h
            exact (ih (chk s2).2).2.1 (by rw [hcf.2.1, hcf.1]; exact hretinv h)
          · intro _
            exact (ih (chk s2).2).2.2.1 (by rw [hcf.2.2.1, hcf.1]; exact hgotinv)
          · intro h
            exact (ih (chk s2).2).2.2.2 (by rw [hcf.2.2.2.2.1]; exact hge h)
    | err e =>
      simp only [consume]
      have hes := errStep_fields s e
      have hcf := chk_fields (errStep s e)
      have heinv1 : s.ret = oksOf s.consumed → (errStep s e).ret = oksOf (errStep s e).consumed := by
        intro h
        rw [hes.2.1, hes.1, oksOf_snoc_err]
        exact h
      have heinv2 : (s.gotFirst = false ↔ oksOf s.consumed = []) →
          ((errStep s e).gotFirst = false ↔ oksOf (errStep s e).consumed = []) := by
        intro h
        rw [hes.2.2.1, hes.1, oksOf_snoc_err]
        exact h
      have heinv3 : emptyPromptMsg ∉ s.errs → emptyPromptMsg ∉ (errStep s e).errs := by
        intro h
        rw [hes.2.2.2]
        simp only [List.mem_append, List.mem_singleton, not_or]
        exact ⟨h, fun hh => transportMsg_ne _ hh.symm⟩
      cases hb : (chk (errStep s e)).1 with
      | true =>
        rw [ifchk_true rfl]
        refine ⟨⟨[(StreamItem.err e, s.isRunning)], hcf.1.trans hes.1⟩, ?_, ?_, ?_⟩
        · intro h
          rw [hcf.2.1, hcf.1]
          exact heinv1 h
        · intro h
          rw [hcf.2.2.1, hcf.1]
          exact heinv2 h
        · intro h
          rw [hcf.2.2.2.2.1]
          exact heinv3 h
      | false =>
        rw [ifchk_false rfl]
        refine ⟨?_, ?_, ?_, ?_⟩
        · obtain ⟨t2, ht2⟩ := (ih (chk (errStep s e)).2).1
          refine ⟨(StreamItem.err e, s.isRunning) :: t2, ?_⟩
          rw [ht2, hcf.1, hes.1, List.append_assoc]
          rfl
        · intro h
          exact (ih (chk (errStep s e)).2).2.1 (by rw [hcf.2.1, hcf.1]; exact heinv1 h)
        · intro h
          exact (ih (chk (errStep s e)).2).2.2.1 (by rw [hcf.2.2.1, hcf.1]; exact heinv2 h)
        · intro h
          exact (ih (chk (errStep s e)).2).2.2.2 (by rw [hcf.2.2.2.2.1]; exact heinv3 h)

theorem chk_nil (x : RState) (h : x.aborts = []) : chk x = (false, x) := by
  unfold chk
  rw [h]

/-- The first pull of the stream happens with `is_running` still true. -/
theorem consume_cons_consumed (s : RState) (item : StreamItem) (rest : List StreamItem) :
    ∃ t, (consume s (item :: rest)).consumed = s.consumed ++ (item, s.isRunning) :: t := by
  cases item with
  | ok comp =>
    simp only [consume]
    rcases hpc : processChoices (okStep s comp) comp.choices with ⟨s2, ctl⟩
    have hf := processChoices_fields comp.choices (okStep s comp)
    rw [hpc] at hf
    have h2con : s2.consumed = s.consumed ++ [(StreamItem.ok comp, s.isRunning)] :=
      hf.1.trans (okStep_fields s comp).1
    cases ctl with
    | brk => exact ⟨[], by rw [h2con]⟩
    | fall =>
      obtain ⟨t2, ht2⟩ := (consume_inv rest s2).1
      exact ⟨t2, by rw [ht2, h2con, List.append_assoc]; rfl⟩
    | cont =>
      dsimp only
      have hcf := chk_fields s2
      cases hb : (chk s2).1 with
      | true =>
        rw [ifchk_true rfl]
        exact ⟨[], by rw [hcf.1, h2con]⟩
      | false =>
        rw [ifchk_false rfl]
        obtain ⟨t2, ht2⟩ := (consume_inv rest (chk s2).2).1
        exact ⟨t2, by rw [ht2, hcf.1, h2con, List.append_assoc]; rfl⟩
  | err e =>
    simp only [consume]
    have hes := errStep_fields s e
    have hcf := chk_fields (errStep s e)
    cases hb : (chk (errStep s e)).1 with
    | true =>
      rw [ifchk_true rfl]
      exact ⟨[], by rw [hcf.1, hes.1]⟩
    | false =>
      rw [ifchk_false rfl]
      obtain ⟨t2, ht2⟩ := (consume_inv rest (chk (errStep s e)).2).1
      exact ⟨t2, by rw [ht2, hcf.1, hes.1, List.append_assoc]; rfl⟩

theorem consume_head_flag (st : List StreamItem) (s : RState)
    (hc : s.consumed = []) (hr : s.isRunning = true) :
    ∀ p, ((consume s st).consumed).head? = some p → p.2 = true := by
  intro p hp
  cases st with
  | nil =>
    rw [show consume s [] = s from rfl, hc] at hp
    exact absurd hp (by simp)
  | cons item rest =>
    obtain ⟨t, ht⟩ := consume_cons_consumed s item rest
    rw [ht, hc, hr] at hp
    simp only [List.nil_append, List.head?_cons, Option.some.injEq] at hp
    rw [← hp]

theorem finishRequest_noticed (s : RState) (hg : s.gotFirst = false) :
    finishRequest s = (printError s emptyPromptMsg, []) := by
  unfold finishRequest
  rw [if_pos hg]

theorem finishRequest_done (s : RState) (hg : s.gotFirst = true) :
    finishRequest s =
      ({ s with out := s.out ++ [['\n']], isRunning := false }, buildResult s.ret) := by
  unfold finishRequest
  rw [if_neg (by rw [hg]; exact fun hh => Bool.noConfusion hh)]

theorem buildResult_eq (ret : List Completion) :
    buildResult ret = (ret.map (fun o => o.choices)).flatten := by
  simp only [buildResult, List.map_map, Function.comp, List.map_id']
  rfl

/-- The final state of the consumption loop, as `request` hands it to
`finishRequest`: the notice was never emitted by the loop itself,
`got_first_success` tracks whether some completion was decoded, `ret`
lists the decoded completions in arrival order, and the first item of the
trace was pulled with `is_running` set. -/
theorem request_state (aborts : List Bool) (stream : List StreamItem) :
    ∃ s : RState, request aborts stream = finishRequest s
      ∧ emptyPromptMsg ∉ s.errs
      ∧ (s.gotFirst = false ↔ oksOf s.consumed = [])
      ∧ s.ret = oksOf s.consumed
      ∧ (∀ p, s.consumed.head? = some p → p.2 = true) := by
  unfold request loopState
  dsimp only
  have h0 := chk_fields (initialRState aborts)
  cases hb : (chk (initialRState aborts)).1 with
  | true =>
    rw [ifchk_true rfl]
    refine ⟨(chk (initialRState aborts)).2, rfl, ?_, ?_, ?_, ?_⟩
    · rw [h0.2.2.2.2.1]
      exact List.not_mem_nil _
    · rw [h0.2.2.1, h0.1]
      exact ⟨fun _ => rfl, fun _ => rfl⟩
    · rw [h0.2.1, h0.1]
      rfl
    · intro p hp
      rw [h0.1] at hp
      exact absurd hp (by simp [initialRState])
  | false =>
    rw [ifchk_false rfl]
    refine ⟨consume (chk (initialRState aborts)).2 stream, rfl, ?_, ?_, ?_, ?_⟩
    · exact (consume_inv stream _).2.2.2 (by rw [h0.2.2.2.2.1]; exact List.not_mem_nil _)
    · exact (consume_inv stream _).2.2.1
        (by rw [h0.2.2.1, h0.1]; exact ⟨fun _ => rfl, fun _ => rfl⟩)
    · exact (consume_inv stream _).2.1 (by rw [h0.2.1, h0.1]; rfl)
    · exact consume_head_flag stream _ (h0.1.trans rfl) (h0.2.2.2.1.trans rfl)

/-- C4 (counterexample): a cycle whose single fragment decodes
successfully but carries neither text nor a terminal status does NOT
produce the empty-prompt notice — `got_first_success` is raised by the
mere arrival of a decoded fragment — and the blank-line separator is
printed; the claim requires the notice in this situation. -/
theorem C4_counterexample :
    ((request [] [StreamItem.ok ⟨[⟨none, ⟨none⟩⟩]⟩]).1).errs = []
    ∧ ((request [] [StreamItem.ok ⟨[⟨none, ⟨none⟩⟩]⟩]).1).out = [['\n']] := by
  constructor <;> decide

/-- C4 (amended): the "Empty prompt, aborting." notice is emitted if and
only if no fragment was successfully decoded during the cycle, for any
abort schedule and stream; a decoded fragment suppresses the notice even
when it carries neither text nor a terminal status. -/
theorem C4_notice_iff_no_completion (aborts : List Bool) (stream : List StreamItem) :
    emptyPromptMsg ∈ ((request aborts stream).1).errs ↔
      oksOf ((request aborts stream).1).consumed = [] := by
  obtain ⟨s, hreq, hne, hiff, _, _⟩ := request_state aborts stream
  rw [hreq]
  cases hg : s.gotFirst with
  | false =>
    rw [finishRequest_noticed s hg]
    constructor
    · intro _
      exact hiff.mp hg
    · intro _
      show emptyPromptMsg ∈ s.errs ++ [emptyPromptMsg]
      simp
  | true =>
    rw [finishRequest_done s hg]
    constructor
    · intro hmem
      exact absurd hmem hne
    · intro hoks
      exact absurd (hg ▸ hiff.mpr hoks) (by intro hh; exact Bool.noConfusion hh)

/-- C8 (confirmed): `request` returns exactly the concatenation, in
arrival order, of the choice lists of every successfully decoded fragment
consumed during the cycle — nothing consumed is omitted and the order is
arrival order — for any abort schedule and stream. -/
theorem C8_returns_all_choices (aborts : List Bool) (stream : List StreamItem) :
    (request aborts stream).2 =
      ((oksOf ((request aborts stream).1).consumed).map (fun o => o.choices)).flatten := by
  obtain ⟨s, hreq, _, hiff, hret, _⟩ := request_state aborts stream
  rw [hreq]
  cases hg : s.gotFirst with
  | false =>
    rw [finishRequest_noticed s hg]
    show ([] : List StreamChoice) = ((oksOf s.consumed).map (fun o => o.choices)).flatten
    rw [hiff.mp hg]
    rfl
  | true =>
    rw [finishRequest_done s hg]
    show buildResult s.ret = ((oksOf s.consumed).map (fun o => o.choices)).flatten
    rw [hret, buildResult_eq]

/-- C7 (counterexample): after a fragment with an error-like finish
reason, `print_error` stores false into `is_running`, yet the consumer
pulls and processes a further fragment of the same stream: on the
two-fragment stream below, the ghost trace records the second fragment as
pulled while `is_running` was false, and its text is still printed. -/
theorem C7_counterexample :
    (((request [] [StreamItem.ok ⟨[⟨some FinishReason.length, ⟨none⟩⟩]⟩,
        StreamItem.ok ⟨[⟨none, ⟨some ['x']⟩⟩]⟩]).1).consumed.map (fun p => p.2))
      = [true, false] := by
  decide

/-- C7 (amended): `is_running` is true when the first fragment of the
cycle is pulled (it is stored true before the loop) and is false when
`request` returns; but it is not true throughout consumption — after a
mid-cycle error report it reads false even though further fragments of
the same stream are still consumed. -/
theorem C7_responding_flag (aborts : List Bool) (stream : List StreamItem) :
    ((request aborts stream).1).isRunning = false
    ∧ (∀ p, (((request aborts stream).1).consumed).head? = some p → p.2 = true) := by
  obtain ⟨s, hreq, _, _, _, hhead⟩ := request_state aborts stream
  rw [hreq]
  constructor
  · cases hg : s.gotFirst with
    | false => rw [finishRequest_noticed s hg]; rfl
    | true => rw [finishRequest_done s hg]
  · intro p hp
    apply hhead
    cases hg : s.gotFirst with
    | false =>
      rw [finishRequest_noticed s hg] at hp
      exact hp
    | true =>
      rw [finishRequest_done s hg] at hp
      exact hp

/-- Witness for the amended C7 theorem on a one-fragment stream. -/
theorem C7_responding_flag_witness :
    ((request [] [StreamItem.ok ⟨[⟨none, ⟨some ['x']⟩⟩]⟩]).1).isRunning = false :=
  (C7_responding_flag [] [StreamItem.ok ⟨[⟨none, ⟨some ['x']⟩⟩]⟩]).1

/-- C2 (counterexample): on the single-fragment stream
`["trailing backslash\"]` the normalizer buffers the fragment and emits
nothing, and when the stream ends `request` never flushes `print_buffer`:
the only text printed is the blank separator, and the fragment is left in
the discarded buffer — nothing is flushed verbatim as the claim states. -/
theorem C2_counterexample :
    ((request [] [StreamItem.ok
        ⟨[⟨none, ⟨some "trailing backslash\\".data⟩⟩]⟩]).1).out.flatten = ['\n']
    ∧ ((request [] [StreamItem.ok
        ⟨[⟨none, ⟨some "trailing backslash\\".data⟩⟩]⟩]).1).printBuffer
      = ["trailing backslash\\".data] := by
  constructor <;> decide

/-- C2 (amended): the buffered text is never flushed at stream end. For
every abort schedule and every stream — in particular any stream whose
last fragment ends in a trailing backslash and therefore sits buffered —
the finishing step of `request` leaves `print_buffer` exactly as the loop
left it and appends at most the blank-line separator to the printed
output, so the printed output contains only the loop's own emissions plus
possibly the separator; in particular, for every fragment `t` ending in a
backslash the single-fragment stream `[t]` prints exactly `"\n"` while
`t` survives only in the dropped buffer. -/
theorem C2_buffer_dropped (aborts : List Bool) (stream : List StreamItem)
    (t : List Char) (h : endsWithBS t = true) :
    (((request aborts stream).1).printBuffer = (loopState aborts stream).printBuffer
      ∧ (((request aborts stream).1).out = (loopState aborts stream).out
        ∨ ((request aborts stream).1).out = (loopState aborts stream).out ++ [['\n']]))
    ∧ ((request [] [StreamItem.ok ⟨[⟨none, ⟨some t⟩⟩]⟩]).1).out.flatten = ['\n']
    ∧ ((request [] [StreamItem.ok ⟨[⟨none, ⟨some t⟩⟩]⟩]).1).printBuffer = [t] := by
  have hfx : fix_newlines [] t = ([t], []) := by
    simp [fix_newlines, h, store_and_do_nothing]
  refine ⟨?_, ?_, ?_⟩
  · cases hg : (loopState aborts stream).gotFirst with
    | false =>
      rw [show request aborts stream = finishRequest (loopState aborts stream) from rfl,
        finishRequest_noticed _ hg]
      exact ⟨rfl, Or.inl rfl⟩
    | true =>
      rw [show request aborts stream = finishRequest (loopState aborts stream) from rfl,
        finishRequest_done _ hg]
      exact ⟨rfl, Or.inr rfl⟩
  · simp [request, loopState, initialRState, chk, consume, processChoices, okStep,
      hfx, finishRequest, printError, buildResult]
  · simp [request, loopState, initialRState, chk, consume, processChoices, okStep,
      hfx, finishRequest, printError, buildResult]

/-- Witness for the amended C2 theorem: a two-fragment stream with a
prior emission and the trailing fragment `"x\"`. -/
theorem C2_buffer_dropped_witness :
    endsWithBS "x\\".data = true ∧
    ((request [] [StreamItem.ok ⟨[⟨none, ⟨some ['a']⟩⟩]⟩,
        StreamItem.ok ⟨[⟨none, ⟨some "x\\".data⟩⟩]⟩]).1).printBuffer
      = (loopState [] [StreamItem.ok ⟨[⟨none, ⟨some ['a']⟩⟩]⟩,
        StreamItem.ok ⟨[⟨none, ⟨some "x\\".data⟩⟩]⟩]).printBuffer ∧
    ((request [] [StreamItem.ok ⟨[⟨none, ⟨some "x\\".data⟩⟩]⟩]).1).printBuffer
      = ["x\\".data] :=
  ⟨by decide,
    (C2_buffer_dropped [] [StreamItem.ok ⟨[⟨none, ⟨some ['a']⟩⟩]⟩,
      StreamItem.ok ⟨[⟨none, ⟨some "x\\".data⟩⟩]⟩] "x\\".data (by decide)).1.1,
    (C2_buffer_dropped [] [] "x\\".data (by decide)).2.2⟩

/-- C3 (counterexample): on a stream whose first fragment carries the
error-like finish reason Length and whose second carries the text "x",
the consumer reports the API error but does NOT abandon the cycle: the
`continue` targets the outer re-check, which then resumes the same
stream, so both fragments are consumed and the second one's text is
printed, followed by the blank separator. -/
theorem C3_counterexample :
    ((request [] [StreamItem.ok ⟨[⟨some FinishReason.length, ⟨none⟩⟩]⟩,
        StreamItem.ok ⟨[⟨none, ⟨some ['x']⟩⟩]⟩]).1).consumed.length = 2
    ∧ ((request [] [StreamItem.ok ⟨[⟨some FinishReason.length, ⟨none⟩⟩]⟩,
        StreamItem.ok ⟨[⟨none, ⟨some ['x']⟩⟩]⟩]).1).out.flatten = ['x', '\n']
    ∧ ((request [] [StreamItem.ok ⟨[⟨some FinishReason.length, ⟨none⟩⟩]⟩,
        StreamItem.ok ⟨[⟨none, ⟨some ['x']⟩⟩]⟩]).1).errs
      = [apiErrMsg FinishReason.length] := by
  refine ⟨?_, ?_, ?_⟩ <;> decide

/-- C3 (amended): when a fragment's first choice carries a terminal
status other than stop, or the stream yields a transport-level error (and
the abort flag stays clear), the consumer reports a user-visible API
error and — for the decoded case — skips the remaining choices of that
fragment, but then resumes consuming the stream with the next fragment —
the remainder of the response cycle is not abandoned; the session
continues either way. -/
theorem C3_error_reports_and_continues (s : RState) (r : FinishReason)
    (ch : StreamChoice) (cs : List StreamChoice) (ss : List StreamItem)
    (e : List Char)
    (hr : r ≠ FinishReason.stop) (hc : ch.finish_reason = some r)
    (ha : s.aborts = []) :
    (consume s (StreamItem.ok ⟨ch :: cs⟩ :: ss)
      = consume (printError (okStep s ⟨ch :: cs⟩) (apiErrMsg r)) ss
    ∧ (printError (okStep s ⟨ch :: cs⟩) (apiErrMsg r)).errs
      = s.errs ++ [apiErrMsg r])
    ∧ (consume s (StreamItem.err e :: ss) = consume (errStep s e) ss
    ∧ (errStep s e).errs = s.errs ++ [transportMsg e]) := by
  constructor
  · have hpc : processChoices (okStep s ⟨ch :: cs⟩)
        ((⟨ch :: cs⟩ : Completion)).choices
        = (printError (okStep s ⟨ch :: cs⟩) (apiErrMsg r), Ctl.cont) := by
      show processChoices (okStep s ⟨ch :: cs⟩) (ch :: cs) = _
      simp only [processChoices]
      rw [chk_nil _ (show (okStep s ⟨ch :: cs⟩).aborts = [] from ha), hc]
      cases r with
      | stop => exact absurd rfl hr
      | length => rfl
      | contentFilter => rfl
    constructor
    · simp only [consume]
      rw [hpc]
      dsimp only
      rw [chk_nil _
        (show (printError (okStep s ⟨ch :: cs⟩) (apiErrMsg r)).aborts = [] from ha)]
      rfl
    · rfl
  · constructor
    · simp only [consume]
      rw [chk_nil _ (show (errStep s e).aborts = [] from ha)]
      rfl
    · rfl

/-- Witness for the amended C3 theorem: a Length finish reason on the
first choice makes the consumer report and then continue with the (here
empty) remainder of the stream, and a transport error likewise. -/
theorem C3_error_reports_and_continues_witness :
    consume (initialRState []) [StreamItem.ok ⟨[⟨some FinishReason.length, ⟨none⟩⟩]⟩]
      = consume (printError (okStep (initialRState [])
          ⟨[⟨some FinishReason.length, ⟨none⟩⟩]⟩) (apiErrMsg FinishReason.length)) []
    ∧ consume (initialRState []) [StreamItem.err "boom".data]
      = consume (errStep (initialRState []) "boom".data) [] :=
  ⟨(C3_error_reports_and_continues (initialRState []) FinishReason.length
      ⟨some FinishReason.length, ⟨none⟩⟩ [] [] "boom".data (by decide) rfl rfl).1.1,
   (C3_error_reports_and_continues (initialRState []) FinishReason.length
      ⟨some FinishReason.length, ⟨none⟩⟩ [] [] "boom".data (by decide) rfl rfl).2.1⟩

/-! Embedding of the line-input loop of `Readline::handle` (readline.rs).

Each loop iteration performs one blocking read whose outcome is an
`RLEvent`: a read line, an interrupt (`ReadlineError::Interrupted`),
end-of-input (`ReadlineError::Eof`), or any other read error.  The state
records the shared flags `HAD_FIRST_INTERRUPT` and `ABORT`, the messages
sent on the channel, the line-editor history, the number of
press-again hints printed, and whether the loop has exited. -/

inductive RLEvent
  | line (l : List Char)
  | interrupted
  | eof
  | otherErr (e : List Char)
deriving DecidableEq

structure RLState where
  hadFirstInterrupt : Bool
  abort : Bool
  sent : List (Option (List Char))
  history : List (List Char)
  hints : Nat
  stopped : Bool
deriving DecidableEq

/-- One iteration body of the `while !ABORT.load()` loop of
`Readline::handle`, for a given `double_ctrlc` configuration. -/
def rlStep (dcc : Bool) (s : RLState) (ev : RLEvent) : RLState :=
  match ev with
  | .line l =>
    if l = [] then s
    else { s with history := s.history ++ [l], sent := s.sent ++ [some l],
                  hadFirstInterrupt := false }
  | .interrupted =>
    if dcc ∧ s.hadFirstInterrupt = false then
      { s with hadFirstInterrupt := true, hints := s.hints + 1 }
    else
      { s with sent := s.sent ++ [none], abort := true, stopped := true }
  | .eof =>
    { s with hadFirstInterrupt := false, sent := s.sent ++ [none], stopped := true }
  | .otherErr _ =>
    { s with sent := s.sent ++ [none], stopped := true }

/-- Run the input loop over a sequence of read outcomes; the loop stops
when it has broken out (`stopped`) or the shared abort flag reads true at
the top of the loop. -/
def rlRun (dcc : Bool) (s : RLState) : List RLEvent → RLState
  | [] => s
  | ev :: evs =>
    if s.stopped ∨ s.abort = true then s
    else rlRun dcc (rlStep dcc s ev) evs

def rlInit : RLState :=
  { hadFirstInterrupt := false, abort := false, sent := [], history := [],
    hints := 0, stopped := false }

inductive DispatchAction
  | terminate
  | emptyPromptError
  | issueRequest (l : List Char)
deriving DecidableEq

/-- The Unicode white-space characters removed by Rust `str::trim`. -/
def wsChars : List Char :=
  ['\u0009', '\u000a', '\u000b', '\u000c', '\u000d', '\u0020', '\u0085',
   '\u00a0', '\u1680', '\u2000', '\u2001', '\u2002', '\u2003', '\u2004',
   '\u2005', '\u2006', '\u2007', '\u2008', '\u2009', '\u200a', '\u2028',
   '\u2029', '\u202f', '\u205f', '\u3000']

def isWs (c : Char) : Bool := wsChars.contains c

/-- Rust `str::trim`: strip leading and trailing white space. -/
def trimWs (l : List Char) : List Char :=
  ((l.dropWhile isWs).reverse.dropWhile isWs).reverse

/-- Modelled from the spec: the session loop's dispatch on a received
`LineMessage` (the repository's `main.rs`, which receives from the
channel and calls `request`, is not under src/).  Spec §4.4: `None`
terminates the consumer loop with no request issued; `Some(line)` empty
after trimming is reported as an empty-prompt error without contacting
the remote service; otherwise exactly one streaming completion request is
issued with the line as sole input. -/
def dispatchLine : Option (List Char) → DispatchAction
  | none => .terminate
  | some l => if trimWs l = [] then .emptyPromptError else .issueRequest l

theorem dropLast_snoc (l : List (Option (List Char))) (a : Option (List Char)) :
    (l ++ [a]).dropLast = l := by
  simp

theorem dropWhile_all_ws (l : List Char) (h : ∀ c ∈ l, isWs c = true) :
    l.dropWhile isWs = [] := by
  induction l with
  | nil => rfl
  | cons c rest ih =>
    rw [List.dropWhile_cons, if_pos (h c (List.mem_cons_self c rest))]
    exact ih (fun x hx => h x (List.mem_cons_of_mem c hx))

theorem trimWs_all_ws (l : List Char) (h : ∀ c ∈ l, isWs c = true) :
    trimWs l = [] := by
  unfold trimWs
  rw [dropWhile_all_ws l h]
  rfl

theorem rlRun_stopped (dcc : Bool) (s : RLState) (evs : List RLEvent)
    (h : s.stopped = true) : rlRun dcc s evs = s := by
  cases evs with
  | nil => rfl
  | cons e es => simp [rlRun, h]

/-- One loop step preserves: a live loop has sent no `None`, and `None`
never occurs before the last sent message. -/
theorem rlStep_inv (dcc : Bool) (s : RLState) (e : RLEvent)
    (h1 : s.stopped = false → none ∉ s.sent)
    (hns : s.stopped = false)
    (h2 : ∀ m ∈ s.sent.dropLast, m ≠ none) :
    ((rlStep dcc s e).stopped = false → none ∉ (rlStep dcc s e).sent)
    ∧ (∀ m ∈ (rlStep dcc s e).sent.dropLast, m ≠ none) := by
  have hnone : none ∉ s.sent := h1 hns
  cases e with
  | line l =>
    by_cases hl : l = []
    · simp only [rlStep, if_pos hl]
      exact ⟨h1, h2⟩
    · simp only [rlStep, if_neg hl]
      constructor
      · intro _
        simp only [List.mem_append, List.mem_singleton, not_or]
        exact ⟨hnone, by intro hx; cases hx⟩
      · rw [dropLast_snoc]
        intro m hm hmn
        exact hnone (hmn ▸ hm)
  | interrupted =>
    by_cases hd : dcc = true ∧ s.hadFirstInterrupt = false
    · simp only [rlStep, if_pos hd]
      exact ⟨fun _ => hnone, h2⟩
    · simp only [rlStep, if_neg hd]
      constructor
      · intro hcontra
        exact absurd hcontra (by simp)
      · rw [dropLast_snoc]
        intro m hm hmn
        exact hnone (hmn ▸ hm)
  | eof =>
    simp only [rlStep]
    constructor
    · intro hcontra
      exact absurd hcontra (by simp)
    · rw [dropLast_snoc]
      intro m hm hmn
      exact hnone (hmn ▸ hm)
  | otherErr msg =>
    simp only [rlStep]
    constructor
    · intro hcontra
      exact absurd hcontra (by simp)
    · rw [dropLast_snoc]
      intro m hm hmn
      exact hnone (hmn ▸ hm)

theorem rlRun_sent_inv (dcc : Bool) : ∀ (evs : List RLEvent) (s : RLState),
    (s.stopped = false → none ∉ s.sent) →
    (∀ m ∈ s.sent.dropLast, m ≠ none) →
    ∀ m ∈ (rlRun dcc s evs).sent.dropLast, m ≠ none := by
  intro evs
  induction evs with
  | nil =>
    intro s _ h2
    exact h2
  | cons e es ih =>
    intro s h1 h2
    by_cases hstop : (s.stopped = true ∨ s.abort = true)
    · rw [show rlRun dcc s (e :: es) = s from by simp only [rlRun, if_pos hstop]]
      exact h2
    · rw [show rlRun dcc s (e :: es) = rlRun dcc (rlStep dcc s e) es from by
        simp only [rlRun, if_neg hstop]]
      have hns : s.stopped = false := by
        cases hx : s.stopped
        · rfl
        · exact absurd (Or.inl hx) hstop
      obtain ⟨g1, g2⟩ := rlStep_inv dcc s e h1 hns h2
      exact ih (rlStep dcc s e) g1 g2

/-- C5 (confirmed): with `double_ctrlc = true`, from any live loop state:
a first interrupt with the pending-interrupt flag clear sets the flag,
prints the hint, sends nothing on the channel and keeps the loop alive
(no abort, not stopped); an interrupt with the flag already set sends
`None`, sets abort and stops; a successful non-empty line submission
clears the flag and sends `Some(line)` from ANY state, flag set or not;
hence, starting with the flag clear, the run interrupt–submission–
interrupt leaves the session alive with nothing terminal sent, and only a
further interrupt exits with `None` and abort — two interrupts are again
required after the submission. -/
theorem C5_interrupt_protocol (s : RLState) (l : List Char)
    (hs : s.stopped = false) (ha : s.abort = false) (hl : l ≠ []) :
    (s.hadFirstInterrupt = false →
      rlStep true s RLEvent.interrupted
        = { s with hadFirstInterrupt := true, hints := s.hints + 1 })
    ∧ (s.hadFirstInterrupt = true →
      rlStep true s RLEvent.interrupted
        = { s with sent := s.sent ++ [none], abort := true, stopped := true })
    ∧ rlStep true s (RLEvent.line l)
      = { s with hadFirstInterrupt := false, history := s.history ++ [l],
                 sent := s.sent ++ [some l] }
    ∧ (s.hadFirstInterrupt = false →
      rlRun true s [RLEvent.interrupted, RLEvent.line l, RLEvent.interrupted]
        = { s with hadFirstInterrupt := true, hints := s.hints + 1 + 1,
                   history := s.history ++ [l], sent := s.sent ++ [some l] })
    ∧ (s.hadFirstInterrupt = false →
      rlRun true s [RLEvent.interrupted, RLEvent.line l, RLEvent.interrupted,
          RLEvent.interrupted]
        = { s with hadFirstInterrupt := true, hints := s.hints + 1 + 1,
                   history := s.history ++ [l],
                   sent := (s.sent ++ [some l]) ++ [none],
                   abort := true, stopped := true }) := by
  refine ⟨?_, ?_, ?_, ?_, ?_⟩
  · intro hf
    simp [rlStep, hf]
  · intro hf
    simp [rlStep, hf]
  · simp [rlStep, hl]
  · intro hf
    simp [rlRun, rlStep, hs, ha, hf, hl]
  · intro hf
    simp [rlRun, rlStep, hs, ha, hf, hl]

/-- Witness for C5: the full interrupt–submission–two-interrupts run from
the initial state. -/
theorem C5_interrupt_protocol_witness :
    rlRun true rlInit [RLEvent.interrupted, RLEvent.line ['h'], RLEvent.interrupted,
        RLEvent.interrupted]
      = { rlInit with hadFirstInterrupt := true, hints := 2, history := [['h']],
                      sent := [some ['h'], none], abort := true, stopped := true } := by
  have h := (C5_interrupt_protocol rlInit ['h'] rfl rfl (by decide)).2.2.2.2 rfl
  simpa [rlInit] using h

/-- C9 (confirmed): on EOF the producer clears the pending-interrupt
flag, sends the `None` sentinel, and stops its loop — ignoring any later
events and leaving the abort flag exactly as it was (not set); moreover
for every run from the initial state, `None` occurs at most as the very
last message sent on the channel. -/
theorem C9_eof_clears_and_none_is_last (dcc : Bool) (s : RLState)
    (evs2 evs : List RLEvent) (hs : s.stopped = false) (ha : s.abort = false) :
    rlRun dcc s (RLEvent.eof :: evs2)
      = { s with hadFirstInterrupt := false, sent := s.sent ++ [none], stopped := true }
    ∧ ∀ m ∈ ((rlRun dcc rlInit evs).sent).dropLast, m ≠ none := by
  constructor
  · have hne : ¬(s.stopped = true ∨ s.abort = true) := by
      intro hx
      rcases hx with hx | hx
      · rw [hs] at hx
        exact Bool.noConfusion hx
      · rw [ha] at hx
        exact Bool.noConfusion hx
    rw [show rlRun dcc s (RLEvent.eof :: evs2)
        = rlRun dcc (rlStep dcc s RLEvent.eof) evs2 from by
      simp only [rlRun, if_neg hne]]
    exact rlRun_stopped dcc _ evs2 rfl
  · exact rlRun_sent_inv dcc evs rlInit
      (fun _ hm => absurd hm (List.not_mem_nil none))
      (fun m hm => absurd hm (List.not_mem_nil m))

/-- Witness for C9: EOF followed by a (never-read) interrupt. -/
theorem C9_eof_clears_and_none_is_last_witness :
    rlRun true rlInit [RLEvent.eof, RLEvent.interrupted]
      = { rlInit with hadFirstInterrupt := false, sent := [none], stopped := true } := by
  have h := (C9_eof_clears_and_none_is_last true rlInit [RLEvent.interrupted] [] rfl rfl).1
  simpa [rlInit] using h

/-- C10 (counterexample): the single-space line is non-empty, so the
producer records it in history and sends it as `Some(" ")` — but
downstream the dispatcher (modelled from the spec) trims it to empty and
reports an empty-prompt error without issuing a request, contradicting
the claim's parenthetical that a request is issued for it. -/
theorem C10_counterexample :
    rlStep true rlInit (RLEvent.line [' '])
      = { rlInit with history := [[' ']], sent := [some [' ']] }
    ∧ dispatchLine (some [' ']) = DispatchAction.emptyPromptError := by
  constructor <;> decide

/-- C10 (amended): the producer's empty-line test is on the raw line
without trimming — only the exactly-empty string is discarded — so every
non-empty line of pure white space is recorded in history and sent as
`Some(line)`; downstream, however, the dispatcher trims it to empty and
reports an empty-prompt error instead of issuing a request. -/
theorem C10_ws_line_sent_but_no_request (dcc : Bool) (s : RLState) (l : List Char)
    (h1 : l ≠ []) (h2 : ∀ c ∈ l, isWs c = true) :
    rlStep dcc s (RLEvent.line l)
      = { s with hadFirstInterrupt := false, history := s.history ++ [l],
                 sent := s.sent ++ [some l] }
    ∧ dispatchLine (some l) = DispatchAction.emptyPromptError := by
  constructor
  · simp [rlStep, h1]
  · simp [dispatchLine, trimWs_all_ws l h2]

/-- Witness for C10 at the two-character line of a space and a tab. -/
theorem C10_ws_line_sent_but_no_request_witness :
    dispatchLine (some [' ', '\t']) = DispatchAction.emptyPromptError :=
  (C10_ws_line_sent_but_no_request true rlInit [' ', '\t']
    (by decide) (by decide)).2

/-- Witness instance of the amended C4 theorem on a concrete stream. -/
theorem C4_notice_iff_no_completion_witness :
    emptyPromptMsg ∈ ((request [] [StreamItem.err "boom".data]).1).errs ↔
      oksOf ((request [] [StreamItem.err "boom".data]).1).consumed = [] :=
  C4_notice_iff_no_completion [] [StreamItem.err "boom".data]

/-- Witness instance of the C8 theorem on a concrete stream. -/
theorem C8_returns_all_choices_witness :
    (request [] [StreamItem.ok ⟨[⟨some FinishReason.stop, ⟨none⟩⟩]⟩]).2 =
      ((oksOf ((request [] [StreamItem.ok ⟨[⟨some FinishReason.stop, ⟨none⟩⟩]⟩]).1).consumed).map
        (fun o => o.choices)).flatten :=
  C8_returns_all_choices [] [StreamItem.ok ⟨[⟨some FinishReason.stop, ⟨none⟩⟩]⟩]
